import Mathlib

/-!
Verification of the field-analysis core: the usage matcher, the field
descriptor parser helpers, the result assembler and the remote field
merger, embedded shallowly from the TypeScript source.

Text corpora (JS objects mapping artifact name to file text) are embedded
as association lists of pairs; a JS object holds each key once, so
iterating its keys and indexing coincides with iterating the pair list.
Optional attributes of the parsed XML tree (xml2js with explicitArray)
are embedded as Option String: none is an absent path, some s is a
present element whose first array entry is the string s.
-/

namespace SF

/- ---------------------------------------------------------------------
Usage matcher, from src/analysis/matchers.ts (containsField).
The source escapes every regex metacharacter of the identifier and then
tests the pattern backslash-b esc backslash-b with the i flag; the
escaped identifier denotes the literal identifier, so the compiled test
is: some case-insensitive occurrence of the identifier with a JS word
boundary on both ends.
--------------------------------------------------------------------- -/

/-- JS word character class (backslash-w): ASCII letters, digits and underscore. -/
def isWordChar (c : Char) : Bool :=
  ('a' ≤ c && c ≤ 'z') || ('A' ≤ c && c ≤ 'Z') || ('0' ≤ c && c ≤ '9') || c == '_'

/-- Case-insensitive literal match of the pattern at the front of the text,
the semantics of a fully escaped pattern under the i flag. -/
def ciStarts : List Char → List Char → Bool
  | [], _ => true
  | _ :: _, [] => false
  | p :: ps, t :: ts => (p.toLower == t.toLower) && ciStarts ps ts

/-- Wordness of the character at index i; out of range counts as non-word. -/
def wordAt (txt : List Char) (i : Nat) : Bool :=
  match txt[i]? with
  | some c => isWordChar c
  | none => false

/-- JS word boundary (backslash-b) at position i of the text: the wordness of
the character before the position differs from the wordness of the character
at the position, the outside of the text counting as non-word. -/
def bAt (txt : List Char) (i : Nat) : Bool :=
  (match i with
   | 0 => false
   | j + 1 => wordAt txt j) != wordAt txt i

/-- RegExp.test of the pattern backslash-b esc backslash-b with the i flag:
the regex engine tries every start position of the text. -/
def testWW (pat txt : List Char) : Bool :=
  (List.range (txt.length + 1)).any (fun i =>
    bAt txt i && ciStarts pat (txt.drop i) && bAt txt (i + pat.length))

/-- containsField from src/analysis/matchers.ts at its default options
(ignoreCase true, wholeWord true), the form used at every call site.
A falsy (empty) text or field name short-circuits to false. -/
def containsField (text fieldName : String) : Bool :=
  if text = "" ∨ fieldName = "" then false
  else testWW fieldName.data text.data

/-- Claim-side characterization (from the spec words): the identifier occurs
in the text bounded by word boundaries on both sides, ignoring case. -/
def wholeWordOccurs (text fieldName : String) : Prop :=
  ∃ i, bAt text.data i = true ∧ ciStarts fieldName.data (text.data.drop i) = true ∧
       bAt text.data (i + fieldName.data.length) = true

theorem ciStarts_le_length : ∀ p t : List Char, ciStarts p t = true → p.length ≤ t.length
  | [], _, _ => Nat.zero_le _
  | _ :: _, [], h => by simp [ciStarts] at h
  | p :: ps, t :: ts, h => by
      simp only [ciStarts, Bool.and_eq_true] at h
      simpa [Nat.succ_le_succ_iff] using ciStarts_le_length ps ts h.2

theorem string_data_nil {s : String} (h : s.data = []) : s = "" :=
  String.ext (h.trans rfl)

/-- Claim C1: containsField implements case-insensitive whole-word matching:
it returns true exactly when the identifier occurs in the text bounded by
word boundaries on both sides, ignoring case; the three concrete matcher
examples of the spec hold, and an empty text or identifier always yields
false, never an error. -/
theorem claim_C1 :
    (∀ text fieldName : String,
       containsField text fieldName = true ↔
         (text ≠ "" ∧ fieldName ≠ "" ∧ wholeWordOccurs text fieldName)) ∧
    containsField "AccountBalance__c field appears" "Balance__c" = false ∧
    containsField "The Balance__c field" "Balance__c" = true ∧
    containsField "the BALANCE__C value" "Balance__c" = true ∧
    (∀ t : String, containsField t "" = false) ∧
    (∀ f : String, containsField "" f = false) := by
  refine ⟨?_, by decide, by decide, by decide, ?_, ?_⟩
  · intro text fieldName
    by_cases ht : text = ""
    · simp [containsField, ht]
    by_cases hf : fieldName = ""
    · simp [containsField, hf]
    rw [containsField, if_neg (by simp [ht, hf])]
    simp only [ht, hf, ne_eq, not_false_eq_true, true_and]
    constructor
    · intro h
      rw [testWW, List.any_eq_true] at h
      obtain ⟨i, _, hcond⟩ := h
      simp only [Bool.and_eq_true] at hcond
      exact ⟨i, hcond.1.1, hcond.1.2, hcond.2⟩
    · rintro ⟨i, h1, h2, h3⟩
      rw [testWW, List.any_eq_true]
      refine ⟨i, List.mem_range.mpr ?_, by simp only [h1, h2, h3, Bool.and_self]⟩
      have hlen : fieldName.data.length ≤ text.data.length - i := by
        simpa [List.length_drop] using ciStarts_le_length _ _ h2
      have hpos : 0 < fieldName.data.length := by
        cases hd : fieldName.data with
        | nil => exact absurd (string_data_nil hd) hf
        | cons a l => simp
      omega
  · intro t; simp [containsField]
  · intro f; simp [containsField]

/- ---------------------------------------------------------------------
Field descriptor parser, from src/analysis/fields.ts.
The parsed tree of one field-definition document (xml2js, explicitArray
true): each scalar child of the CustomField root is an Option String,
none when the path is absent. valueSetDefinition.value is the list of
value children, each carrying its fullName first entry (or none when the
fullName child is absent); an absent value key is embedded as the empty
list, which the source treats the same way (both fail the nonempty-array
test guarding the literal-values branch).
--------------------------------------------------------------------- -/

structure ValueSetDef where
  value : List (Option String)
deriving DecidableEq, Repr

structure ValueSet where
  valueSetDefinition : Option ValueSetDef
  controllingField : Option String
  valueSetName : Option String
deriving DecidableEq, Repr

structure CustomField where
  fullName : Option String
  description : Option String
  trackHistory : Option String
  label : Option String
  type : Option String
  formula : Option String
  length : Option String
  precision : Option String
  scale : Option String
  referenceTo : Option String
  required : Option String
  valueSet : Option ValueSet
deriving DecidableEq, Repr

/-- readXmlFieldValue collapsed onto the embedded tree: a missing path yields
the empty string, a present element yields its (string) first entry. -/
def readAttr (o : Option String) : String := o.getD ""

/-- Names extracted by the literal-values branch of getPicklistValues:
the fullName of every value child, absent fullName defaulting to the empty
string, empty names filtered out (filter Boolean in the source). -/
def pickNames (vs : ValueSet) : List String :=
  match vs.valueSetDefinition with
  | some d => (d.value.map (fun v => v.getD "")).filter (fun s => !(s == ""))
  | none => []

/-- getPicklistValues from src/analysis/fields.ts; first component values,
second component controlling field. The controllingField test in the source
is on the xml2js array, which is truthy whenever the element is present. -/
def getPicklistValues (customField : CustomField) : String × String :=
  match customField.valueSet with
  | none => ("", "")
  | some vs =>
    let controlling := match vs.controllingField with
      | some c => c
      | none => ""
    if (pickNames vs).length > 0 then
      (String.intercalate ", " (pickNames vs), controlling)
    else
      match vs.valueSetName with
      | some n => if n = "" then ("", controlling) else (n, controlling)
      | none => ("", controlling)

/-- JS whitespace used by String.prototype.trim on the values at hand. -/
def isWS (c : Char) : Bool := c == ' ' || c == '\t' || c == '\n' || c == '\r'

/-- String.prototype.trim: drop whitespace from both ends. -/
def jsTrim (s : String) : String :=
  ⟨((s.data.dropWhile isWS).reverse.dropWhile isWS).reverse⟩

/-- String.prototype.toLowerCase on the character list (the same function as
String.toLower, written over the list so it evaluates structurally). -/
def jsToLower (s : String) : String := ⟨s.data.map Char.toLower⟩

/-- getFieldLength from src/analysis/fields.ts. The source trims the type
before comparing; the branch testing the string Currency-with-a-trailing-blank
can never fire after the trim but is kept as in the source. The len, precision
and scale accesses use JS truthiness: an absent element and a present empty
string both count as missing. -/
def getFieldLength (customField : CustomField) (fieldType : String) : String :=
  let t := jsTrim fieldType
  if t = "Text" ∨ t = "Html" ∨ t = "LongTextArea" then
    readAttr customField.length
  else if t = "Number" ∨ t = "Currency" ∨ t = "Currency " then
    let p := readAttr customField.precision
    let s := readAttr customField.scale
    String.intercalate ", " (([p, s]).filter (fun x => !(x == "")))
  else ""

theorem dropWhile_head_false {p : Char → Bool} :
    ∀ {l a as}, List.dropWhile p l = a :: as → p a = false := by
  intro l
  induction l with
  | nil => intro a as h; simp [List.dropWhile] at h
  | cons x xs ih =>
      intro a as h
      by_cases hx : p x = true
      · rw [List.dropWhile_cons_of_pos hx] at h; exact ih h
      · rw [List.dropWhile_cons_of_neg hx] at h
        cases h; simpa using hx

/-- The result of jsTrim never ends in a blank, so in particular it is never
the string Currency-with-a-trailing-blank: the dead branch of getFieldLength
stays dead. -/
theorem jsTrim_ne_currency_blank (s : String) : jsTrim s ≠ "Currency " := by
  intro h
  have hdata : ((s.data.dropWhile isWS).reverse.dropWhile isWS).reverse = "Currency ".data :=
    congrArg String.data h
  have hrev : (s.data.dropWhile isWS).reverse.dropWhile isWS = "Currency ".data.reverse := by
    have := congrArg List.reverse hdata
    simpa using this
  have : "Currency ".data.reverse = ' ' :: "Currency".data.reverse := by decide
  rw [this] at hrev
  have := dropWhile_head_false hrev
  simp [isWS] at this

/-- Claim C7: picklist precedence in getPicklistValues: a nonempty literal
list of value names wins and is joined with a comma-blank separator, else a
nonempty shared value-set name is used verbatim, else the values are empty;
the controlling field is read independently of the branch and is populated
exactly when the controlling-field element is present under the value set. -/
theorem claim_C7 :
    (∀ cf : CustomField, cf.valueSet = none → getPicklistValues cf = ("", "")) ∧
    (∀ (cf : CustomField) (vs : ValueSet), cf.valueSet = some vs →
      ((getPicklistValues cf).2 = readAttr vs.controllingField ∧
       (pickNames vs ≠ [] →
          (getPicklistValues cf).1 = String.intercalate ", " (pickNames vs)) ∧
       (∀ n : String, pickNames vs = [] → vs.valueSetName = some n → n ≠ "" →
          (getPicklistValues cf).1 = n) ∧
       (pickNames vs = [] → (∀ n, vs.valueSetName = some n → n = "") →
          (getPicklistValues cf).1 = ""))) := by
  constructor
  · intro cf h; simp [getPicklistValues, h]
  · intro cf vs h
    refine ⟨?_, ?_, ?_, ?_⟩
    · rw [getPicklistValues, h]
      cases hc : vs.controllingField with
      | none =>
          simp only [readAttr, hc, Option.getD_none]
          by_cases hn : (pickNames vs).length > 0
          · simp [hn]
          · simp only [hn, if_neg, ite_false]
            cases hv : vs.valueSetName with
            | none => simp
            | some n => by_cases hne : n = "" <;> simp [hne]
      | some c =>
          simp only [readAttr, hc, Option.getD_some]
          by_cases hn : (pickNames vs).length > 0
          · simp [hn]
          · simp only [hn, if_neg, ite_false]
            cases hv : vs.valueSetName with
            | none => simp
            | some n => by_cases hne : n = "" <;> simp [hne]
    · intro hne
      have hlen : (pickNames vs).length > 0 := by
        cases hp : pickNames vs with
        | nil => exact absurd hp hne
        | cons a l => simp
      rw [getPicklistValues, h]
      simp [hlen]
    · intro n hnil hn hne
      rw [getPicklistValues, h]
      simp [hnil, hn, hne]
    · intro hnil hall
      rw [getPicklistValues, h]
      cases hv : vs.valueSetName with
      | none => simp [hnil, hv]
      | some n =>
          have : n = "" := hall n hv
          simp [hnil, hv, this]

/-- Concrete value set for the claim C7 witness. -/
def vsC7 : ValueSet :=
  { valueSetDefinition := some { value := [some "High", some "Low"] },
    controllingField := some "Dep__c",
    valueSetName := some "Ignored" }

/-- Concrete picklist field for the claim C7 witness. -/
def cfC7 : CustomField :=
  { fullName := some "Priority__c", description := none, trackHistory := none,
    label := none, type := some "Picklist", formula := none, length := none,
    precision := none, scale := none, referenceTo := none, required := none,
    valueSet := some vsC7 }

/-- Claim C7 witness: a concrete field with literal values High and Low, a
controlling field and a shared value-set name that is ignored because the
literal branch fires. -/
theorem claim_C7_witness :
    (getPicklistValues cfC7).1 = "High, Low" ∧ (getPicklistValues cfC7).2 = "Dep__c" := by
  constructor
  · exact ((claim_C7.2 cfC7 vsC7 rfl).2.1 (by decide)).trans (by decide)
  · exact ((claim_C7.2 cfC7 vsC7 rfl).1).trans (by decide)

/-- Claim C8: getFieldLength yields the empty string unless the trimmed
dataType is one of Text, Html, LongTextArea, Number, Currency, even when
length-like attributes are present; for Text, Html and LongTextArea it is the
raw length attribute (empty if absent); for Number and Currency it joins the
precision and scale carrying a nonempty value with a comma and a blank,
keeps the one present alone, and is empty when neither is present. -/
theorem claim_C8 :
    ∀ (cf : CustomField) (fieldType : String),
      (jsTrim fieldType ∉ (["Text", "Html", "LongTextArea", "Number", "Currency"] : List String) →
         getFieldLength cf fieldType = "") ∧
      ((jsTrim fieldType = "Text" ∨ jsTrim fieldType = "Html" ∨ jsTrim fieldType = "LongTextArea") →
         getFieldLength cf fieldType = readAttr cf.length) ∧
      ((jsTrim fieldType = "Number" ∨ jsTrim fieldType = "Currency") →
        ((readAttr cf.precision ≠ "" → readAttr cf.scale ≠ "" →
            getFieldLength cf fieldType = readAttr cf.precision ++ ", " ++ readAttr cf.scale) ∧
         (readAttr cf.precision ≠ "" → readAttr cf.scale = "" →
            getFieldLength cf fieldType = readAttr cf.precision) ∧
         (readAttr cf.precision = "" → readAttr cf.scale ≠ "" →
            getFieldLength cf fieldType = readAttr cf.scale) ∧
         (readAttr cf.precision = "" → readAttr cf.scale = "" →
            getFieldLength cf fieldType = ""))) := by
  intro cf fieldType
  refine ⟨?_, ?_, ?_⟩
  · intro hnot
    simp only [List.mem_cons, List.not_mem_nil, or_false, not_or] at hnot
    obtain ⟨h1, h2, h3, h4, h5⟩ := hnot
    rw [getFieldLength]
    rw [if_neg (by simp [h1, h2, h3]),
        if_neg (by simp [h4, h5, jsTrim_ne_currency_blank fieldType])]
  · intro h
    rw [getFieldLength, if_pos h]
  · intro h
    have hne1 : ¬(jsTrim fieldType = "Text" ∨ jsTrim fieldType = "Html" ∨
        jsTrim fieldType = "LongTextArea") := by
      rcases h with h | h <;> simp [h]
    have hpos : jsTrim fieldType = "Number" ∨ jsTrim fieldType = "Currency" ∨
        jsTrim fieldType = "Currency " := by
      rcases h with h | h
      · exact Or.inl h
      · exact Or.inr (Or.inl h)
    refine ⟨?_, ?_, ?_, ?_⟩ <;> intro hp hs <;>
      simp only [getFieldLength] <;> rw [if_neg hne1, if_pos hpos]
    · rw [show List.filter (fun x => !(x == "")) [readAttr cf.precision, readAttr cf.scale] =
            [readAttr cf.precision, readAttr cf.scale] from by simp [List.filter_cons, hp, hs]]
      rfl
    · rw [show List.filter (fun x => !(x == "")) [readAttr cf.precision, readAttr cf.scale] =
            [readAttr cf.precision] from by simp [List.filter_cons, hp, hs]]
      rfl
    · rw [show List.filter (fun x => !(x == "")) [readAttr cf.precision, readAttr cf.scale] =
            [readAttr cf.scale] from by simp [List.filter_cons, hp, hs]]
      rfl
    · rw [show List.filter (fun x => !(x == "")) [readAttr cf.precision, readAttr cf.scale] =
            [] from by simp [List.filter_cons, hp, hs]]
      rfl

/- ---------------------------------------------------------------------
Corpora and reference collection, from src/analysis/search.ts.
--------------------------------------------------------------------- -/

/-- A text corpus: artifact name to full file text, in key iteration order. -/
abbrev TextMap := List (String × String)

/-- The LastModifiedDate lookup table, developer name (lower case) to date. -/
abbrev StringMap := List (String × String)

/-- searchUsage from src/analysis/search.ts: the names of all artifacts whose
text contains the field name (whole word, case-insensitive), joined with a
semicolon and a blank. -/
def searchUsage (contentMap : TextMap) (needle : String) : String :=
  String.intercalate "; " ((contentMap.filter (fun kv => containsField kv.2 needle)).map Prod.fst)

/-- The optional extras argument of collectReferences; an absent corpus is
falsy in the source and its loop is skipped. -/
structure Extras where
  lwc : Option TextMap
  aura : Option TextMap
  profiles : Option TextMap
  permsets : Option TextMap

/-- One labelled scan of collectReferences: label every matching artifact
with its category tag. -/
def tagged (tag : String) (m : TextMap) (f : String) : List String :=
  (m.filter (fun kv => containsField kv.2 f)).map (fun kv => tag ++ kv.1)

/-- collectReferences from src/analysis/search.ts: ten exhaustive corpus scans
in source order, results joined with a semicolon and a newline. -/
def collectReferences (apex flow vr dup report email : TextMap) (fieldName : String)
    (extras : Extras) : String :=
  let f := fieldName
  let refs :=
    tagged "Apex: " apex f ++ tagged "Flow: " flow f ++ tagged "ValidationRule: " vr f ++
    tagged "DuplicateRule: " dup f ++ tagged "Report: " report f ++
    tagged "EmailTemplate: " email f ++
    (match extras.lwc with | some m => tagged "LWC: " m f | none => []) ++
    (match extras.aura with | some m => tagged "Aura: " m f | none => []) ++
    (match extras.profiles with | some m => tagged "Profile: " m f | none => []) ++
    (match extras.permsets with | some m => tagged "PermSet: " m f | none => [])
  String.intercalate ";\n" refs

/-- Case-sensitive literal match of the pattern at the front of the text. -/
def csStarts : List Char → List Char → Bool
  | [], _ => true
  | _ :: _, [] => false
  | p :: ps, t :: ts => (p == t) && csStarts ps ts

/-- JS String.prototype.includes: raw case-sensitive substring test, the
operation the ProfilesAndPermSets filters use in the source. -/
def jsIncludes (hay needle : String) : Bool :=
  (List.range (hay.data.length + 1)).any (fun i => csStarts needle.data (hay.data.drop i))

/-- The Profile entries of the ProfilesAndPermSets column, as filtered in
processFields and in mergeStandardFields: keys of the profiles corpus whose
text is nonempty (truthy) and includes the field name as a raw substring. -/
def profRefs (profiles : Option TextMap) (name : String) : List String :=
  ((profiles.getD []).filter (fun kv => !(kv.2 == "") && jsIncludes kv.2 name)).map
    (fun kv => "Profile: " ++ kv.1)

/-- The PermSet entries of the ProfilesAndPermSets column. -/
def permsetRefs (permsets : Option TextMap) (name : String) : List String :=
  ((permsets.getD []).filter (fun kv => !(kv.2 == "") && jsIncludes kv.2 name)).map
    (fun kv => "PermSet: " ++ kv.1)

/-- The fixed result row shape of src/types.ts (ResultRow). -/
structure ResultRow where
  FieldName : String
  FieldLabel : String
  Description : String
  FieldType : String
  Formula : String
  FieldLength : String
  LookupRef : String
  Required : String
  HistoryTracking : String
  PicklistValues : String
  ControllingField : String
  LastModifiedDate : String
  Layouts : String
  Flexipages : String
  RecordTypes : String
  References : String
  ProfilesAndPermSets : String
deriving DecidableEq, Repr

/- ---------------------------------------------------------------------
Result assembler, from src/analysis/fields.ts (processFields).
--------------------------------------------------------------------- -/

/-- The preloaded corpora handed to processFields. -/
structure FieldMaps where
  lastModified : StringMap
  apex : TextMap
  flow : TextMap
  vr : TextMap
  dup : TextMap
  layout : TextMap
  recordType : TextMap
  flexipage : TextMap
  report : TextMap
  email : TextMap
  lwc : Option TextMap
  aura : Option TextMap
  profiles : Option TextMap
  permsets : Option TextMap

/-- The body of the processFields loop for one document whose tree has the
CustomField root: build one result row. The local call of collectReferences
passes only lwc and aura in extras, so local References carry no Profile or
PermSet entries; those go to the separate ProfilesAndPermSets column,
computed with the raw substring filter of the source. -/
def buildRow (maps : FieldMaps) (cf : CustomField) : ResultRow :=
  let fieldName := readAttr cf.fullName
  let fieldType := readAttr cf.type
  let pick := getPicklistValues cf
  { FieldName := fieldName
    FieldLabel := readAttr cf.label
    Description := readAttr cf.description
    FieldType := fieldType
    Formula := readAttr cf.formula
    FieldLength := getFieldLength cf fieldType
    LookupRef := if fieldType = "Lookup" then readAttr cf.referenceTo else ""
    Required := if jsToLower (readAttr cf.required) = "true" then "TRUE" else "FALSE"
    HistoryTracking := readAttr cf.trackHistory
    PicklistValues := pick.1
    ControllingField := pick.2
    LastModifiedDate := (List.lookup (jsToLower fieldName) maps.lastModified).getD ""
    Layouts := searchUsage maps.layout fieldName
    Flexipages := searchUsage maps.flexipage fieldName
    RecordTypes := searchUsage maps.recordType fieldName
    References := collectReferences maps.apex maps.flow maps.vr maps.dup maps.report maps.email
      fieldName ⟨maps.lwc, maps.aura, none, none⟩
    ProfilesAndPermSets := String.intercalate ";\n"
      (profRefs maps.profiles fieldName ++ permsetRefs maps.permsets fieldName) }

/-- Outcome of parsing one discovered field-definition document:
the XML parser rejects it outright (parseStringPromise throws), or it parses
but carries no CustomField root, or it parses with the root. -/
inductive FieldDoc where
  | malformed
  | noRoot
  | root (cf : CustomField)
deriving DecidableEq, Repr

/-- The terminal errors processFields can raise. -/
inductive ProcErr where
  | fieldsLocationNotFound
  | noFieldDocuments
  | xmlParseError
deriving DecidableEq, Repr

/-- The document loop of processFields: a rejected parse throws out of the
loop (there is no try-catch in the source), a missing root is skipped by
the continue, a rooted document contributes its row in order. -/
def processDocs (maps : FieldMaps) : List FieldDoc → Except ProcErr (List ResultRow)
  | [] => Except.ok []
  | FieldDoc.malformed :: _ => Except.error ProcErr.xmlParseError
  | FieldDoc.noRoot :: rest => processDocs maps rest
  | FieldDoc.root cf :: rest =>
      match processDocs maps rest with
      | Except.error e => Except.error e
      | Except.ok rows => Except.ok (buildRow maps cf :: rows)

/-- processFields from src/analysis/fields.ts: the existence check of the
fields directory comes first, then the glob discovery (the documents list),
then the loop. -/
def processFields (dirExists : Bool) (docs : List FieldDoc) (maps : FieldMaps) :
    Except ProcErr (List ResultRow) :=
  if !dirExists then Except.error ProcErr.fieldsLocationNotFound
  else if docs.isEmpty then Except.error ProcErr.noFieldDocuments
  else processDocs maps docs

/-- Claim C9: processFields fails with the fields-location-not-found error
when the directory does not exist, for every document list whatsoever (the
check precedes every read, so no document influences the outcome); with the
directory present but zero documents discovered it fails with the
no-field-documents error; both are returned errors carrying no rows. -/
theorem claim_C9 :
    (∀ (docs : List FieldDoc) (maps : FieldMaps),
       processFields false docs maps = Except.error ProcErr.fieldsLocationNotFound) ∧
    (∀ maps : FieldMaps,
       processFields true [] maps = Except.error ProcErr.noFieldDocuments) := by
  exact ⟨fun docs maps => rfl, fun maps => rfl⟩

/-- Empty corpora, for concrete evaluations. -/
def emptyFieldMaps : FieldMaps :=
  { lastModified := [], apex := [], flow := [], vr := [], dup := [], layout := [],
    recordType := [], flexipage := [], report := [], email := [],
    lwc := none, aura := none, profiles := none, permsets := none }

/-- A minimal well-formed field document for concrete evaluations. -/
def cfPlain : CustomField :=
  { fullName := some "A__c", description := none, trackHistory := none,
    label := none, type := some "Text", formula := none, length := none,
    precision := none, scale := none, referenceTo := none, required := none,
    valueSet := none }

/-- Claim C2 counterexample: a batch holding one well-formed document and one
document the XML parser rejects aborts with a parse error; no row is produced
for the well-formed document, contradicting the claim that a malformed
document is recovered locally and the others still yield rows. -/
theorem claim_C2_counterexample :
    processFields true [FieldDoc.root cfPlain, FieldDoc.malformed] emptyFieldMaps =
      Except.error ProcErr.xmlParseError := rfl

/-- Claim C2 amended: only the missing-root parse outcome is recovered
locally: such a document yields no row, raises no error, and every other
document still contributes exactly as without it; a document the XML parser
rejects outright aborts the whole batch with a parse error; a batch whose
documents all parse with the root yields one row per document in order. -/
theorem claim_C2_amended :
    (∀ (maps : FieldMaps) (pre post : List FieldDoc),
       processDocs maps (pre ++ FieldDoc.noRoot :: post) = processDocs maps (pre ++ post)) ∧
    (∀ (maps : FieldMaps) (pre post : List FieldDoc),
       processDocs maps (pre ++ FieldDoc.malformed :: post) =
         Except.error ProcErr.xmlParseError) ∧
    (∀ (maps : FieldMaps) (cfs : List CustomField),
       processDocs maps (cfs.map FieldDoc.root) = Except.ok (cfs.map (buildRow maps))) := by
  have hroot : ∀ (maps : FieldMaps) (cf : CustomField) (rest : List FieldDoc),
      processDocs maps (FieldDoc.root cf :: rest) =
        match processDocs maps rest with
        | Except.error e => Except.error e
        | Except.ok rows => Except.ok (buildRow maps cf :: rows) := fun _ _ _ => rfl
  refine ⟨?_, ?_, ?_⟩
  · intro maps pre post
    induction pre with
    | nil => rfl
    | cons d pre ih =>
        cases d with
        | malformed => rfl
        | noRoot =>
            rw [List.cons_append, List.cons_append]
            show processDocs maps (pre ++ FieldDoc.noRoot :: post) = processDocs maps (pre ++ post)
            exact ih
        | root cf => rw [List.cons_append, List.cons_append, hroot, hroot, ih]
  · intro maps pre post
    induction pre with
    | nil => rfl
    | cons d pre ih =>
        cases d with
        | malformed => rfl
        | noRoot =>
            rw [List.cons_append]
            show processDocs maps (pre ++ FieldDoc.malformed :: post) =
              Except.error ProcErr.xmlParseError
            exact ih
        | root cf => rw [List.cons_append, hroot, ih]
  · intro maps cfs
    induction cfs with
    | nil => rfl
    | cons cf cfs ih => rw [List.map_cons, hroot, ih, List.map_cons]

/- ---------------------------------------------------------------------
Remote field merger, from src/analysis/standard.ts (mergeStandardFields).
--------------------------------------------------------------------- -/

/-- One remotely enumerated field: a QualifiedApiName and DataType pair. -/
structure FieldDef where
  QualifiedApiName : String
  DataType : String
deriving DecidableEq, Repr

/-- The corpora handed to mergeStandardFields (no lastModified table). -/
structure MergeMaps where
  apex : TextMap
  flow : TextMap
  vr : TextMap
  dup : TextMap
  report : TextMap
  email : TextMap
  layout : TextMap
  recordType : TextMap
  flexipage : TextMap
  lwc : Option TextMap
  aura : Option TextMap
  profiles : Option TextMap
  permsets : Option TextMap

/-- The row mergeStandardFields synthesizes for one non-duplicate remote
pair: dataType into FieldType, every descriptor-only attribute empty,
Required forced FALSE, usage and reference columns computed with searchUsage
and collectReferences; unlike the local call, the extras of collectReferences
here carry the profiles and permsets corpora too. -/
def synthStandardRow (maps : MergeMaps) (d : FieldDef) : ResultRow :=
  let name := d.QualifiedApiName
  { FieldName := name
    FieldLabel := ""
    Description := ""
    FieldType := d.DataType
    Formula := ""
    FieldLength := ""
    LookupRef := ""
    Required := "FALSE"
    HistoryTracking := ""
    PicklistValues := ""
    ControllingField := ""
    LastModifiedDate := ""
    Layouts := searchUsage maps.layout name
    Flexipages := searchUsage maps.flexipage name
    RecordTypes := searchUsage maps.recordType name
    References := collectReferences maps.apex maps.flow maps.vr maps.dup maps.report maps.email
      name ⟨maps.lwc, maps.aura, maps.profiles, maps.permsets⟩
    ProfilesAndPermSets := String.intercalate ";\n"
      (profRefs maps.profiles name ++ permsetRefs maps.permsets name) }

/-- One iteration of the mergeStandardFields loop: a falsy (empty) name is
skipped, a name already in the lower-cased existing-name set is skipped,
otherwise the synthesized row is pushed. The set is computed once from the
input rows and never extended inside the loop. -/
def mergeStep (existingNames : List String) (maps : MergeMaps)
    (merged : List ResultRow) (d : FieldDef) : List ResultRow :=
  if d.QualifiedApiName = "" then merged
  else if existingNames.contains (jsToLower d.QualifiedApiName) then merged
  else merged ++ [synthStandardRow maps d]

/-- mergeStandardFields from src/analysis/standard.ts. -/
def mergeStandardFields (existingRows : List ResultRow) (fieldDefs : List FieldDef)
    (maps : MergeMaps) : List ResultRow :=
  let existingNames := existingRows.map (fun r => (jsToLower r.FieldName))
  fieldDefs.foldl (mergeStep existingNames maps) existingRows

/-- The loop as an Option-valued selection, for reasoning: what mergeStep
contributes for one remote pair. -/
def mergeSelect (existingNames : List String) (maps : MergeMaps) (d : FieldDef) :
    Option ResultRow :=
  if d.QualifiedApiName = "" then none
  else if existingNames.contains (jsToLower d.QualifiedApiName) then none
  else some (synthStandardRow maps d)

theorem mergeStep_eq (existingNames : List String) (maps : MergeMaps)
    (merged : List ResultRow) (d : FieldDef) :
    mergeStep existingNames maps merged d =
      merged ++ (mergeSelect existingNames maps d).toList := by
  rw [mergeStep, mergeSelect]
  by_cases h1 : d.QualifiedApiName = ""
  · rw [if_pos h1, if_pos h1]; simp
  rw [if_neg h1, if_neg h1]
  by_cases h2 : existingNames.contains (jsToLower d.QualifiedApiName) = true
  · rw [if_pos h2, if_pos h2]; simp
  · rw [if_neg h2, if_neg h2]; simp

theorem foldl_mergeStep (existingNames : List String) (maps : MergeMaps) :
    ∀ (fieldDefs : List FieldDef) (init : List ResultRow),
      fieldDefs.foldl (mergeStep existingNames maps) init =
        init ++ fieldDefs.filterMap (mergeSelect existingNames maps)
  | [], init => by simp
  | d :: ds, init => by
      rw [List.foldl_cons, mergeStep_eq, foldl_mergeStep existingNames maps ds]
      cases h : mergeSelect existingNames maps d with
      | none => simp [List.filterMap_cons, h]
      | some r => simp [List.filterMap_cons, h]

/-- mergeStandardFields is the input rows followed by the selected
synthesized rows. -/
theorem mergeStandardFields_eq (existingRows : List ResultRow) (fieldDefs : List FieldDef)
    (maps : MergeMaps) :
    mergeStandardFields existingRows fieldDefs maps =
      existingRows ++ fieldDefs.filterMap
        (mergeSelect (existingRows.map (fun r => (jsToLower r.FieldName))) maps) := by
  rw [mergeStandardFields]
  exact foldl_mergeStep _ maps fieldDefs existingRows

theorem mergeSelect_some {existingNames : List String} {maps : MergeMaps} {d : FieldDef}
    {r : ResultRow} (h : mergeSelect existingNames maps d = some r) :
    r = synthStandardRow maps d ∧ d.QualifiedApiName ≠ "" ∧
      existingNames.contains (jsToLower d.QualifiedApiName) = false := by
  rw [mergeSelect] at h
  by_cases h1 : d.QualifiedApiName = ""
  · rw [if_pos h1] at h; cases h
  rw [if_neg h1] at h
  by_cases h2 : existingNames.contains (jsToLower d.QualifiedApiName) = true
  · rw [if_pos h2] at h; cases h
  · rw [if_neg h2] at h
    cases h
    exact ⟨rfl, h1, by simpa using h2⟩

theorem contains_iff_mem (l : List String) (s : String) :
    l.contains s = true ↔ s ∈ l := by
  rw [List.contains_iff_exists_mem_beq]
  constructor
  · rintro ⟨x, hx, hbeq⟩
    rw [beq_iff_eq] at hbeq
    rw [hbeq]; exact hx
  · intro h; exact ⟨s, h, by simp⟩

/-- Empty merge corpora, for concrete evaluations. -/
def emptyMergeMaps : MergeMaps :=
  { apex := [], flow := [], vr := [], dup := [], report := [], email := [], layout := [],
    recordType := [], flexipage := [], lwc := none, aura := none,
    profiles := none, permsets := none }

/-- Claim C6: the remote merge is idempotent: merging the same inventory into
the result of a first merge with that inventory appends nothing, because the
second merge finds every remote identifier already present. -/
theorem claim_C6 :
    ∀ (rows : List ResultRow) (defs : List FieldDef) (maps : MergeMaps),
      mergeStandardFields (mergeStandardFields rows defs maps) defs maps =
        mergeStandardFields rows defs maps := by
  intro rows defs maps
  rw [mergeStandardFields_eq rows defs maps]
  set L := defs.filterMap (mergeSelect (rows.map fun r => (jsToLower r.FieldName)) maps) with hL
  rw [mergeStandardFields_eq]
  have hnil : defs.filterMap
      (mergeSelect ((rows ++ L).map fun r => (jsToLower r.FieldName)) maps) = [] := by
    rw [List.filterMap_eq_nil_iff]
    intro d hd
    rw [mergeSelect]
    by_cases h1 : d.QualifiedApiName = ""
    · rw [if_pos h1]
    rw [if_neg h1]
    have hcont : ((rows ++ L).map fun r => (jsToLower r.FieldName)).contains
        (jsToLower d.QualifiedApiName) = true := by
      rw [contains_iff_mem, List.map_append]
      by_cases h2 : (rows.map fun r => (jsToLower r.FieldName)).contains
          (jsToLower d.QualifiedApiName) = true
      · rw [contains_iff_mem] at h2
        exact List.mem_append.mpr (Or.inl h2)
      · have hsel : mergeSelect (rows.map fun r => (jsToLower r.FieldName)) maps d =
            some (synthStandardRow maps d) := by
          rw [mergeSelect, if_neg h1, if_neg h2]
        have hmem : synthStandardRow maps d ∈ L := by
          rw [hL]
          exact List.mem_filterMap.mpr ⟨d, hd, hsel⟩
        refine List.mem_append.mpr (Or.inr ?_)
        exact List.mem_map.mpr ⟨synthStandardRow maps d, hmem, rfl⟩
    rw [if_pos hcont]
  rw [hnil, List.append_nil]

/-- Claim C4 counterexample: the existing-name set is computed once and never
extended inside the loop, so a remote inventory repeating the same apiName
twice appends two rows with the same FieldName: the merged set is not
pairwise case-insensitively distinct. -/
theorem claim_C4_counterexample :
    ¬ (mergeStandardFields [] [⟨"A__c", "Text"⟩, ⟨"A__c", "Text"⟩] emptyMergeMaps).Pairwise
        (fun r s => (jsToLower r.FieldName) ≠ (jsToLower s.FieldName)) := by
  decide

/-- Claim C4 amended: when the local FieldName values are pairwise distinct
case-insensitively AND the remote apiNames are themselves pairwise distinct
case-insensitively, the merged row set has pairwise case-insensitively
distinct FieldName values. -/
theorem claim_C4_amended :
    ∀ (rows : List ResultRow) (defs : List FieldDef) (maps : MergeMaps),
      rows.Pairwise (fun r s => (jsToLower r.FieldName) ≠ (jsToLower s.FieldName)) →
      defs.Pairwise (fun d e => (jsToLower d.QualifiedApiName) ≠ (jsToLower e.QualifiedApiName)) →
      (mergeStandardFields rows defs maps).Pairwise
        (fun r s => (jsToLower r.FieldName) ≠ (jsToLower s.FieldName)) := by
  intro rows defs maps hrows hdefs
  rw [mergeStandardFields_eq, List.pairwise_append]
  refine ⟨hrows, ?_, ?_⟩
  · rw [List.pairwise_filterMap]
    refine hdefs.imp ?_
    intro d e hne r hr s hs
    obtain ⟨hr1, -, -⟩ := mergeSelect_some hr
    obtain ⟨hs1, -, -⟩ := mergeSelect_some hs
    rw [hr1, hs1]
    exact hne
  · intro a ha b hb
    obtain ⟨d, hd, hsel⟩ := List.mem_filterMap.mp hb
    obtain ⟨hb1, hne, hcont⟩ := mergeSelect_some hsel
    rw [hb1]
    intro heq
    have hc : (rows.map fun r => (jsToLower r.FieldName)).contains
        (jsToLower d.QualifiedApiName) = true := by
      rw [contains_iff_mem]
      exact List.mem_map.mpr ⟨a, ha, heq⟩
    exact absurd (hc.symm.trans hcont) (by decide)

/-- Claim C4 witness: one fresh remote pair merged into the empty local set
keeps the distinctness invariant. -/
theorem claim_C4_witness :
    (mergeStandardFields [] [⟨"A__c", "Text"⟩] emptyMergeMaps).Pairwise
      (fun r s => (jsToLower r.FieldName) ≠ (jsToLower s.FieldName)) :=
  claim_C4_amended [] [⟨"A__c", "Text"⟩] emptyMergeMaps (by simp) (by simp)

/-- Claim C5 counterexample: a remote pair with the empty apiName is skipped
by the source even though no local row has a case-insensitively equal
FieldName, so no row at all is appended, against the claimed
otherwise-exactly-one-row-is-appended behavior. -/
theorem claim_C5_counterexample :
    mergeStandardFields [] [⟨"", "Text"⟩] emptyMergeMaps = [] := rfl

/-- Claim C5 amended: for every nonempty remote apiName the claimed behavior
holds: the pair contributes nothing when a local FieldName equals it
case-insensitively, and otherwise appends exactly one row with dataType in
FieldType, every descriptor-only attribute empty, Required FALSE, and the
usage and reference columns computed with searchUsage and collectReferences. -/
theorem claim_C5_amended :
    ∀ (rows : List ResultRow) (maps : MergeMaps) (n dt : String), n ≠ "" →
      ((∃ r ∈ rows, (jsToLower r.FieldName) = (jsToLower n)) →
         mergeStandardFields rows [⟨n, dt⟩] maps = rows) ∧
      ((∀ r ∈ rows, (jsToLower r.FieldName) ≠ (jsToLower n)) →
         mergeStandardFields rows [⟨n, dt⟩] maps =
           rows ++ [{ FieldName := n, FieldLabel := "", Description := "",
                      FieldType := dt, Formula := "", FieldLength := "", LookupRef := "",
                      Required := "FALSE", HistoryTracking := "", PicklistValues := "",
                      ControllingField := "", LastModifiedDate := "",
                      Layouts := searchUsage maps.layout n,
                      Flexipages := searchUsage maps.flexipage n,
                      RecordTypes := searchUsage maps.recordType n,
                      References := collectReferences maps.apex maps.flow maps.vr maps.dup
                        maps.report maps.email n
                        ⟨maps.lwc, maps.aura, maps.profiles, maps.permsets⟩,
                      ProfilesAndPermSets := String.intercalate ";\n"
                        (profRefs maps.profiles n ++ permsetRefs maps.permsets n) }]) := by
  intro rows maps n dt hne
  have heq : mergeStandardFields rows [⟨n, dt⟩] maps =
      rows ++ (mergeSelect (rows.map fun r => (jsToLower r.FieldName)) maps ⟨n, dt⟩).toList := by
    rw [mergeStandardFields_eq]
    cases h : mergeSelect (rows.map fun r => (jsToLower r.FieldName)) maps ⟨n, dt⟩ with
    | none => simp [List.filterMap_cons, h]
    | some r => simp [List.filterMap_cons, h]
  constructor
  · rintro ⟨r, hr, hlc⟩
    have hcont : (rows.map fun r => (jsToLower r.FieldName)).contains (jsToLower n) = true := by
      rw [contains_iff_mem]
      exact List.mem_map.mpr ⟨r, hr, hlc⟩
    rw [heq, mergeSelect, if_neg hne, if_pos hcont]
    simp
  · intro hall
    have hncont : ¬ ((rows.map fun r => (jsToLower r.FieldName)).contains (jsToLower n) = true) := by
      rw [contains_iff_mem]
      intro hmem
      obtain ⟨r, hr, hlc⟩ := List.mem_map.mp hmem
      exact hall r hr hlc
    rw [heq, mergeSelect, if_neg hne, if_neg hncont]
    rfl

/-- Claim C5 witness: a fresh remote pair appended to the empty local set. -/
theorem claim_C5_witness :
    mergeStandardFields [] [⟨"B__c", "Text"⟩] emptyMergeMaps =
      [] ++ [{ FieldName := "B__c", FieldLabel := "", Description := "",
               FieldType := "Text", Formula := "", FieldLength := "", LookupRef := "",
               Required := "FALSE", HistoryTracking := "", PicklistValues := "",
               ControllingField := "", LastModifiedDate := "",
               Layouts := searchUsage emptyMergeMaps.layout "B__c",
               Flexipages := searchUsage emptyMergeMaps.flexipage "B__c",
               RecordTypes := searchUsage emptyMergeMaps.recordType "B__c",
               References := collectReferences emptyMergeMaps.apex emptyMergeMaps.flow
                 emptyMergeMaps.vr emptyMergeMaps.dup emptyMergeMaps.report emptyMergeMaps.email
                 "B__c" ⟨emptyMergeMaps.lwc, emptyMergeMaps.aura, emptyMergeMaps.profiles,
                         emptyMergeMaps.permsets⟩,
               ProfilesAndPermSets := String.intercalate ";\n"
                 (profRefs emptyMergeMaps.profiles "B__c" ++
                  permsetRefs emptyMergeMaps.permsets "B__c") }] :=
  (claim_C5_amended [] emptyMergeMaps "B__c" "Text" (by decide)).2 (by simp)

/-- Claim C10: the merger never alters the local rows: the output starts with
exactly the input rows in order, everything after them is a synthesized row
for some remote pair with a nonempty apiName, and a pair with the empty
apiName contributes no row. -/
theorem claim_C10 :
    ∀ (rows : List ResultRow) (defs : List FieldDef) (maps : MergeMaps),
      (mergeStandardFields rows defs maps).take rows.length = rows ∧
      (∀ r ∈ (mergeStandardFields rows defs maps).drop rows.length,
         ∃ d ∈ defs, d.QualifiedApiName ≠ "" ∧ r = synthStandardRow maps d) ∧
      (∀ dt : String, mergeStandardFields rows [⟨"", dt⟩] maps = rows) := by
  intro rows defs maps
  refine ⟨?_, ?_, ?_⟩
  · rw [mergeStandardFields_eq]
    exact List.take_left rows _
  · rw [mergeStandardFields_eq, List.drop_left]
    intro r hr
    obtain ⟨d, hd, hsel⟩ := List.mem_filterMap.mp hr
    obtain ⟨h1, h2, -⟩ := mergeSelect_some hsel
    exact ⟨d, hd, h2, h1⟩
  · intro dt
    rw [mergeStandardFields_eq]
    simp [List.filterMap_cons, mergeSelect]

/-- A concrete local row for witnesses. -/
def rowLocal : ResultRow :=
  { FieldName := "Local__c", FieldLabel := "", Description := "", FieldType := "Text",
    Formula := "", FieldLength := "", LookupRef := "", Required := "FALSE",
    HistoryTracking := "", PicklistValues := "", ControllingField := "",
    LastModifiedDate := "", Layouts := "", Flexipages := "", RecordTypes := "",
    References := "", ProfilesAndPermSets := "" }

/-- Claim C10 witness: in a concrete merge of one local row with one fresh
remote pair, the row after the local ones is a synthesized row of the
inventory. -/
theorem claim_C10_witness :
    ∃ d ∈ ([⟨"Std__c", "Text"⟩] : List FieldDef), d.QualifiedApiName ≠ "" ∧
      synthStandardRow emptyMergeMaps ⟨"Std__c", "Text"⟩ = synthStandardRow emptyMergeMaps d :=
  (claim_C10 [rowLocal] [⟨"Std__c", "Text"⟩] emptyMergeMaps).2.1
    (synthStandardRow emptyMergeMaps ⟨"Std__c", "Text"⟩) (by decide)

/-- Corpora with one profile artifact for the claim C3 counterexample. -/
def mapsC3 : FieldMaps :=
  { emptyFieldMaps with profiles := some [("Admin", "AccountBalance__c")] }

/-- A field named Balance__c for the claim C3 counterexample. -/
def cfBalance : CustomField :=
  { cfPlain with fullName := some "Balance__c" }

/-- Claim C3 counterexample: the profile artifact text AccountBalance__c does
not contain Balance__c under the whole-word case-insensitive matcher, yet the
ProfilesAndPermSets list of the Balance__c row names that artifact, because
the source filters profiles and permission sets with the raw substring
includes instead of the Matcher. -/
theorem claim_C3_counterexample :
    (buildRow mapsC3 cfBalance).ProfilesAndPermSets = "Profile: Admin" ∧
    containsField "AccountBalance__c" "Balance__c" = false := by
  exact ⟨by decide, by decide⟩

/-- Claim C3 amended: the ProfilesAndPermSets list is built from a raw
case-sensitive substring test (JS includes) over nonempty artifact texts, not
from the whole-word case-insensitive Matcher used for the other corpora; the
same substring rule applies to locally declared rows and to rows synthesized
by the remote merge. -/
theorem claim_C3_amended :
    (∀ (maps : FieldMaps) (cf : CustomField),
       (buildRow maps cf).ProfilesAndPermSets =
         String.intercalate ";\n"
           (profRefs maps.profiles (readAttr cf.fullName) ++
            permsetRefs maps.permsets (readAttr cf.fullName))) ∧
    (∀ (maps : MergeMaps) (d : FieldDef),
       (synthStandardRow maps d).ProfilesAndPermSets =
         String.intercalate ";\n"
           (profRefs maps.profiles d.QualifiedApiName ++
            permsetRefs maps.permsets d.QualifiedApiName)) ∧
    (∀ (profiles : TextMap) (name k t : String),
       (k, t) ∈ profiles → t ≠ "" → jsIncludes t name = true →
       ("Profile: " ++ k) ∈ profRefs (some profiles) name) ∧
    (∀ (profiles : TextMap) (name e : String),
       e ∈ profRefs (some profiles) name →
       ∃ k t, e = "Profile: " ++ k ∧ (k, t) ∈ profiles ∧ t ≠ "" ∧
         jsIncludes t name = true) := by
  refine ⟨fun maps cf => rfl, fun maps d => rfl, ?_, ?_⟩
  · intro profiles name k t hmem ht hj
    rw [profRefs]
    refine List.mem_map.mpr ⟨(k, t), List.mem_filter.mpr ⟨hmem, ?_⟩, rfl⟩
    simp [ht, hj]
  · intro profiles name e he
    rw [profRefs] at he
    obtain ⟨⟨k, t⟩, hkv, heq⟩ := List.mem_map.mp he
    obtain ⟨hkvmem, hpred⟩ := List.mem_filter.mp hkv
    simp only [Bool.and_eq_true, Bool.not_eq_true', beq_eq_false_iff_ne, ne_eq] at hpred
    exact ⟨k, t, heq.symm, hkvmem, hpred.1, hpred.2⟩

/-- Claim C3 amended witness: the Admin profile entry produced by the raw
substring rule on the AccountBalance__c text. -/
theorem claim_C3_amended_witness :
    ("Profile: " ++ "Admin") ∈ profRefs (some [("Admin", "AccountBalance__c")]) "Balance__c" :=
  claim_C3_amended.2.2.1 [("Admin", "AccountBalance__c")] "Balance__c" "Admin"
    "AccountBalance__c" (by decide) (by decide) (by decide)

/-- Concrete number field for the claim C8 witness. -/
def cfC8 : CustomField :=
  { fullName := some "Amount__c", description := none, trackHistory := none,
    label := none, type := some "Number", formula := none, length := none,
    precision := some "18", scale := some "0", referenceTo := none, required := none,
    valueSet := none }

/-- Claim C8 witness: a Number field with precision 18 and scale 0 yields the
joined field length. -/
theorem claim_C8_witness : getFieldLength cfC8 "Number" = "18" ++ ", " ++ "0" :=
  ((claim_C8 cfC8 "Number").2.2 (Or.inl (by decide))).1 (by decide) (by decide)

end SF
